import Mathlib

/-!
Verification of the resilient communication layer of the browser chat
frontend.  Each namespace is a shallow embedding of one source module:

* `WS`       — `src/apps/web/src/lib/ws.ts` (`ChatWSClient`)
* `ToolsClient` — `src/apps/web/src/lib/toolsClient.ts` (`ToolsClient.fetchWithRetry`)
* `API`      — `src/unnamed/part_000` (`fetchWithTimeout`)
* `SSE`      — `src/apps/web/src/lib/stream.ts` (`chatStream`, buffered) and
               `src/unnamed/part_002` (`chatStream`, per-chunk line split)
* `UI`       — `src/apps/web/src/components/chat/ChatInterface.tsx` (`handleSend`)

Machine integers do not occur (all counters are small naturals); callbacks
are modelled as explicit event lists; the event loop is modelled by feeding
an explicit list of events to the handler functions in order.
-/

namespace WS

/-- Configuration of `ChatWSClient` (constructor defaults:
`pingIntervalMs = 25000`, `maxReconnectAttempts = 5`). -/
structure Config where
  pingIntervalMs : Nat
  maxReconnectAttempts : Nat
deriving Repr, DecidableEq

/-- The mutable fields of `ChatWSClient` that the claims are about:
`attempt` (reconnect counter), `reconnect` (flag), whether the heartbeat
interval is running, how many reconnect `setTimeout(() => this.connect())`
calls have been scheduled so far, and whether `this.ws` is non-null. -/
structure State where
  attempt : Nat
  reconnect : Bool
  heartbeat : Bool
  scheduled : Nat
  wsPresent : Bool
deriving Repr, DecidableEq

/-- Result of `safeParse` on a well-formed JSON payload: the three fields
the `onmessage` handler inspects, each `none` when absent.  A malformed
payload is represented by `Option.none` at the `Option Msg` layer
(`safeParse` returns `null` for it). -/
structure Msg where
  type : Option String
  data : Option String
  message : Option String
deriving Repr, DecidableEq

/-- A caller callback invocation, in the order the client fires them. -/
inductive Callback where
  | onOpen : Callback
  | onDelta : String → Callback
  | onDone : Callback
  | onError : String → Callback
  | onClose : Nat → Callback
deriving Repr, DecidableEq

/-- `ws.onmessage`: `const msg = safeParse(evt.data); const t = msg?.type ?? "delta";`
then route on `t`.  `msg = none` models a malformed payload (`safeParse`
returned `null`): `null?.type` is `undefined`, so `t` defaults to `"delta"`
and `String(msg?.data ?? "")` is the empty string. -/
def handleMessage (msg : Option Msg) : List Callback :=
  let t := (msg.bind Msg.type).getD ("delta")
  if t = "delta" then [Callback.onDelta ((msg.bind Msg.data).getD (""))]
  else if t = "done" then [Callback.onDone]
  else if t = "error" then [Callback.onError ((msg.bind Msg.message).getD ("error"))]
  else []

/-- `ws.onopen`: start the heartbeat, reset `attempt` to 0, fire `onOpen`. -/
def handleOpen (st : State) : State × List Callback :=
  ({ st with heartbeat := true, attempt := 0 }, [Callback.onOpen])

/-- `ws.onclose`: stop the heartbeat, fire `onClose(e.code)`, then
`if (!this.reconnect) return; if (this.attempt >= this.maxReconnectAttempts) return;`
otherwise increment `attempt` and schedule one `connect()` via `setTimeout`.
The close code `e.code` is passed to the callback but never branched on. -/
def handleClose (cfg : Config) (st : State) (code : Nat) : State × List Callback :=
  let st1 : State := { st with heartbeat := false }
  let cbs := [Callback.onClose code]
  if st1.reconnect = false then (st1, cbs)
  else if cfg.maxReconnectAttempts ≤ st1.attempt then (st1, cbs)
  else ({ st1 with attempt := st1.attempt + 1, scheduled := st1.scheduled + 1 }, cbs)

/-- `ws.onerror`: fire `onError("ws_error")`; no state change. -/
def handleErr (st : State) : State × List Callback :=
  (st, [Callback.onError ("ws_error")])

/-- `close(code, reason)` called by the owner: `stopHeartbeat()`, then
`this.reconnect = false`, then `this.ws?.close(...)` and `this.ws = null`.
The reconnect flag is cleared before the underlying close is initiated. -/
def closeClient (st : State) : State :=
  { st with heartbeat := false, reconnect := false, wsPresent := false }

/-- The socket / caller events a connected client can observe. -/
inductive Event where
  | opened : Event
  | message : Option Msg → Event
  | closed : Nat → Event
  | errored : Event
  | callerClose : Event
deriving Repr, DecidableEq

/-- Dispatch one event to the corresponding `ChatWSClient` handler. -/
def step (cfg : Config) (st : State) : Event → State × List Callback
  | Event.opened => handleOpen st
  | Event.message m => (st, handleMessage m)
  | Event.closed code => handleClose cfg st code
  | Event.errored => handleErr st
  | Event.callerClose => (closeClient st, [])

/-- Run a list of events in order, accumulating the fired callbacks. -/
def run (cfg : Config) (st : State) : List Event → State × List Callback
  | [] => (st, [])
  | e :: es =>
    let p1 := step cfg st e
    let p2 := run cfg p1.1 es
    (p2.1, p1.2 ++ p2.2)

theorem step_preserves_noreconnect (cfg : Config) (st : State) (e : Event)
    (h : st.reconnect = false) :
    (step cfg st e).1.reconnect = false ∧ (step cfg st e).1.scheduled = st.scheduled := by
  cases e with
  | opened => exact ⟨h, rfl⟩
  | message m => exact ⟨h, rfl⟩
  | closed code =>
      simp only [step, handleClose, h]
      exact ⟨rfl, rfl⟩
  | errored => exact ⟨h, rfl⟩
  | callerClose => exact ⟨rfl, rfl⟩

theorem run_preserves_noreconnect (cfg : Config) :
    ∀ (es : List Event) (st : State), st.reconnect = false →
      (run cfg st es).1.reconnect = false ∧ (run cfg st es).1.scheduled = st.scheduled := by
  intro es
  induction es with
  | nil => intro st h; exact ⟨h, rfl⟩
  | cons e es ih =>
      intro st h
      have hs := step_preserves_noreconnect cfg st e h
      have hr := ih (step cfg st e).1 hs.1
      simp only [run]
      exact ⟨hr.1, hr.2.trans hs.2⟩

/-- One close event schedules a reconnect iff the flag is set and the
budget is not exhausted, independently of the close code. -/
theorem handleClose_scheduled (cfg : Config) (st : State) (code : Nat) :
    (handleClose cfg st code).1.scheduled =
      st.scheduled +
        (if st.reconnect = true ∧ st.attempt < cfg.maxReconnectAttempts then 1 else 0) := by
  simp only [handleClose]
  cases hr : st.reconnect with
  | false => simp [hr]
  | true =>
      by_cases hb : cfg.maxReconnectAttempts ≤ st.attempt
      · simp [hb, Nat.not_lt.mpr hb]
      · simp [hb, Nat.lt_of_not_le hb]

theorem handleClose_code_irrelevant (cfg : Config) (st : State) (c₁ c₂ : Nat) :
    (handleClose cfg st c₁).1 = (handleClose cfg st c₂).1 := by
  simp only [handleClose]
  by_cases h1 : st.reconnect = false
  · simp [h1]
  · by_cases h2 : cfg.maxReconnectAttempts ≤ st.attempt
    · simp [h1, h2]
    · simp [h1, h2]

theorem run_cons (cfg : Config) (st : State) (e : Event) (es : List Event) :
    (run cfg st (e :: es)).1 = (run cfg (step cfg st e).1 es).1 := rfl

theorem run_closes_budget (cfg : Config) (code : Nat) :
    ∀ (k : Nat) (st : State), st.reconnect = true →
      (run cfg st (List.replicate k (Event.closed code))).1.scheduled =
        st.scheduled + min k (cfg.maxReconnectAttempts - st.attempt) := by
  intro k
  induction k with
  | zero => intro st _; simp [run]
  | succ k ih =>
      intro st h
      rw [List.replicate_succ, run_cons]
      by_cases hb : cfg.maxReconnectAttempts ≤ st.attempt
      · have hst : (step cfg st (Event.closed code)).1 = { st with heartbeat := false } := by
          simp [step, handleClose, h, hb]
        rw [hst, ih _ (by simp [h])]
        simp only
        omega
      · have hst : (step cfg st (Event.closed code)).1 =
            { st with
              heartbeat := false
              attempt := st.attempt + 1
              scheduled := st.scheduled + 1 } := by
          simp [step, handleClose, h, hb]
        rw [hst, ih _ (by simp [h])]
        simp only
        omega

/-- C1 counterexample: the claim says a close with the normal code 1000
never schedules a reconnect, yet on a freshly opened client
(`attempt = 0`, `reconnect = true`, default budget 5) the `onclose`
handler schedules exactly one reconnect for close code 1000, because the
handler never inspects the close code. -/
theorem close1000_schedules_reconnect :
    (handleClose ⟨25000, 5⟩ ⟨0, true, true, 0, true⟩ 1000).1.scheduled = 1 := by
  decide

/-- C1 (amended): reconnect scheduling is independent of the close code.
Any close event (1000, 1001, 1006, 1008, 1011 or other) schedules exactly
one reconnect attempt iff the reconnect flag is set and the attempt
counter is below `maxReconnectAttempts`; starting from a fresh connection
(`attempt = 0`), `k` successive closes schedule exactly
`min k maxReconnectAttempts` reconnects, after which no further attempts
occur. -/
theorem close_schedules_iff_budget :
    (∀ (cfg : Config) (st : State) (code : Nat),
      (handleClose cfg st code).1.scheduled =
        st.scheduled +
          (if st.reconnect = true ∧ st.attempt < cfg.maxReconnectAttempts then 1 else 0) ∧
      ∀ c₂ : Nat, (handleClose cfg st code).1 = (handleClose cfg st c₂).1) ∧
    (∀ (cfg : Config) (k code sched : Nat) (hb w : Bool),
      (run cfg ⟨0, true, hb, sched, w⟩ (List.replicate k (Event.closed code))).1.scheduled =
        sched + min k cfg.maxReconnectAttempts) := by
  constructor
  · intro cfg st code
    exact ⟨handleClose_scheduled cfg st code,
      fun c₂ => handleClose_code_irrelevant cfg st code c₂⟩
  · intro cfg k code sched hb w
    have := run_closes_budget cfg code k ⟨0, true, hb, sched, w⟩ rfl
    simpa using this

/-- C7: after the caller invokes `close()`, no subsequent event sequence —
including server-initiated abnormal closes (e.g. code 1006) — ever
schedules a reconnect: `close()` clears the reconnect flag before the
underlying socket close, and no handler ever sets it back. -/
theorem no_reconnect_after_close (cfg : Config) (st : State) (es : List Event) :
    (run cfg (closeClient st) es).1.scheduled = st.scheduled := by
  have h := run_preserves_noreconnect cfg es (closeClient st) rfl
  exact h.2

/-- C8 counterexample: the claim says no caller callback fires for a
malformed payload, but the `onmessage` handler routes it as a delta
(`msg?.type ?? "delta"` with `msg = null`) and fires `onDelta` with the
empty string (`String(msg?.data ?? "")`). -/
theorem malformed_fires_onDelta :
    handleMessage none = [Callback.onDelta ("")] ∧ handleMessage none ≠ [] := by
  constructor
  · rfl
  · intro h
    simp [handleMessage] at h

/-- C8 (amended): a malformed inbound payload does not tear down the
connection (the client state is unchanged) and fires neither `onDone` nor
`onError`, but it is not dropped silently: it is routed as a delta event
and `onDelta` fires with the empty string. -/
theorem malformed_keeps_connection (cfg : Config) (st : State) :
    step cfg st (Event.message none) = (st, [Callback.onDelta ("")]) := by
  rfl

end WS

namespace ToolsClient

/-- Outcome of one `fetch` attempt inside `ToolsClient.fetchWithRetry`.
A resolved response carries its HTTP status and the value of its
`Retry-After` header in seconds when the server sent one (the code never
reads this header).  `abortError` is a rejection whose `name` is
`"AbortError"` (the per-attempt deadline timer fired and aborted the
controller); `otherError` is any other rejection (network failure). -/
inductive Outcome where
  | response : Nat → Option Nat → Outcome
  | abortError : Outcome
  | otherError : Outcome
deriving Repr, DecidableEq

/-- `Response.ok` of the Fetch standard: status in the range 200–299. -/
def resOk (status : Nat) : Bool :=
  decide (200 ≤ status) && decide (status ≤ 299)

/-- What `fetchWithRetry` produces: a returned `Response` (possibly
non-2xx), or a thrown error (`throw lastError`), with `true` when the last
caught error was an `AbortError`. -/
inductive RetryResult where
  | response : Nat → Option Nat → RetryResult
  | thrown : Bool → RetryResult
deriving Repr, DecidableEq

/-- Observable side effects of a `fetchWithRetry` run: the number of
`fetch` calls, the backoff sleeps in milliseconds in order, and the fate
of the per-attempt `setTimeout(() => controller.abort(), timeout)` timers:
`timersCleared` counts `clearTimeout` calls (only on the response path),
`timersFired` counts timers that fired and aborted their attempt, and
`timersLeaked` counts timers that were neither cleared nor fired — a
non-abort rejection skips the `clearTimeout` line, so its timer outlives
the request. -/
structure Trace where
  calls : Nat
  delays : List Nat
  timersSet : Nat
  timersCleared : Nat
  timersFired : Nat
  timersLeaked : Nat
deriving Repr, DecidableEq

def Trace.init : Trace := ⟨0, [], 0, 0, 0, 0⟩

/-- The body of the `for (let attempt = 0; attempt <= maxRetries; attempt++)`
loop of `fetchWithRetry`, one constructor case per outcome of the
attempt's `fetch`:

* response: `clearTimeout(timeoutId)`; then
  `if (!response.ok && response.status >= 500 && attempt < maxRetries)`
  sleep `1000 * 2 ** attempt` and continue, else `return response`;
* `AbortError`: if attempts remain, sleep and continue, else fall out of
  the loop and `throw lastError`;
* any other error: same retry logic (the second and third `catch` arms),
  but the timer was never cleared and never fired, so it leaks.

The `fuel` argument is the number of loop iterations still allowed
(`maxRetries + 1 - attempt` at every reachable call). -/
def go (m : Nat) (oracle : Nat → Outcome) : Nat → Nat → Trace → RetryResult × Trace
  | _, 0, tr => (RetryResult.thrown false, tr)
  | attempt, fuel + 1, tr =>
    let tr1 : Trace := { tr with calls := tr.calls + 1, timersSet := tr.timersSet + 1 }
    match oracle attempt with
    | Outcome.response status ra =>
      let tr2 : Trace := { tr1 with timersCleared := tr1.timersCleared + 1 }
      if resOk status = false ∧ 500 ≤ status ∧ attempt < m then
        go m oracle (attempt + 1) fuel
          { tr2 with delays := tr2.delays ++ [1000 * 2 ^ attempt] }
      else (RetryResult.response status ra, tr2)
    | Outcome.abortError =>
      let tr2 : Trace := { tr1 with timersFired := tr1.timersFired + 1 }
      if attempt < m then
        go m oracle (attempt + 1) fuel
          { tr2 with delays := tr2.delays ++ [1000 * 2 ^ attempt] }
      else (RetryResult.thrown true, tr2)
    | Outcome.otherError =>
      let tr2 : Trace := { tr1 with timersLeaked := tr1.timersLeaked + 1 }
      if attempt < m then
        go m oracle (attempt + 1) fuel
          { tr2 with delays := tr2.delays ++ [1000 * 2 ^ attempt] }
      else (RetryResult.thrown false, tr2)

/-- `ToolsClient.fetchWithRetry` with `maxRetries = m`; the `oracle` gives
the outcome of the `fetch` call of each attempt index. -/
def fetchWithRetry (m : Nat) (oracle : Nat → Outcome) : RetryResult × Trace :=
  go m oracle 0 (m + 1) Trace.init

/-- `const maxRetries = this.config.retries || 1`: a configured retry
count of 0 is falsy in JavaScript and collapses to 1. -/
def maxRetriesOf (retries : Nat) : Nat :=
  if retries = 0 then 1 else retries

/-- Number of loop iterations `go` performs, defined with exactly the
same branch conditions: a further call happens iff the attempt returned a
status ≥ 500 (and not ok) or threw, and the attempt count has not
exhausted `m`. -/
def countFrom (m : Nat) (oracle : Nat → Outcome) : Nat → Nat → Nat
  | _, 0 => 0
  | attempt, fuel + 1 =>
    match oracle attempt with
    | Outcome.response status _ =>
      if resOk status = false ∧ 500 ≤ status ∧ attempt < m then
        1 + countFrom m oracle (attempt + 1) fuel
      else 1
    | Outcome.abortError =>
      if attempt < m then 1 + countFrom m oracle (attempt + 1) fuel else 1
    | Outcome.otherError =>
      if attempt < m then 1 + countFrom m oracle (attempt + 1) fuel else 1

def isResp : Outcome → Bool
  | Outcome.response _ _ => true
  | Outcome.abortError => false
  | Outcome.otherError => false

def isAbort : Outcome → Bool
  | Outcome.response _ _ => false
  | Outcome.abortError => true
  | Outcome.otherError => false

def isOther : Outcome → Bool
  | Outcome.response _ _ => false
  | Outcome.abortError => false
  | Outcome.otherError => true

/-- Drop the `Retry-After` header from an attempt outcome. -/
def stripRA : Outcome → Outcome
  | Outcome.response status _ => Outcome.response status none
  | o => o

theorem countFrom_pos (m : Nat) (oracle : Nat → Outcome) (attempt fuel : Nat)
    (h : 1 ≤ fuel) : 1 ≤ countFrom m oracle attempt fuel := by
  cases fuel with
  | zero => omega
  | succ fuel =>
      rw [countFrom]
      cases oracle attempt with
      | response status ra => dsimp only; split <;> omega
      | abortError => dsimp only; split <;> omega
      | otherError => dsimp only; split <;> omega

theorem go_calls (m : Nat) (oracle : Nat → Outcome) :
    ∀ (fuel attempt : Nat) (tr : Trace),
      ((go m oracle attempt fuel tr).2).calls = tr.calls + countFrom m oracle attempt fuel := by
  intro fuel
  induction fuel with
  | zero => intro attempt tr; simp [go, countFrom]
  | succ fuel ih =>
      intro attempt tr
      rw [go, countFrom]
      cases oracle attempt with
      | response status ra =>
          dsimp only
          split
          · rw [ih]; dsimp only; omega
          · rfl
      | abortError =>
          dsimp only
          split
          · rw [ih]; dsimp only; omega
          · rfl
      | otherError =>
          dsimp only
          split
          · rw [ih]; dsimp only; omega
          · rfl

theorem go_delays (m : Nat) (oracle : Nat → Outcome) :
    ∀ (fuel attempt : Nat) (tr : Trace), m + 1 = attempt + fuel →
      ((go m oracle attempt fuel tr).2).delays =
        tr.delays ++
          (List.range' attempt (countFrom m oracle attempt fuel - 1)).map
            (fun i => 1000 * 2 ^ i) := by
  intro fuel
  induction fuel with
  | zero => intro attempt tr _; simp [go, countFrom]
  | succ fuel ih =>
      intro attempt tr hinv
      rw [go, countFrom]
      cases oracle attempt with
      | response status ra =>
          dsimp only
          split
          · rename_i hc
            have hfuel : 1 ≤ fuel := by omega
            have hpos := countFrom_pos m oracle (attempt + 1) fuel hfuel
            rw [ih (attempt + 1) _ (by omega)]
            dsimp only
            have hsub : 1 + countFrom m oracle (attempt + 1) fuel - 1 =
                (countFrom m oracle (attempt + 1) fuel - 1) + 1 := by omega
            rw [hsub, List.range'_succ]
            simp
          · simp
      | abortError =>
          dsimp only
          split
          · rename_i hc
            have hfuel : 1 ≤ fuel := by omega
            have hpos := countFrom_pos m oracle (attempt + 1) fuel hfuel
            rw [ih (attempt + 1) _ (by omega)]
            dsimp only
            have hsub : 1 + countFrom m oracle (attempt + 1) fuel - 1 =
                (countFrom m oracle (attempt + 1) fuel - 1) + 1 := by omega
            rw [hsub, List.range'_succ]
            simp
          · simp
      | otherError =>
          dsimp only
          split
          · rename_i hc
            have hfuel : 1 ≤ fuel := by omega
            have hpos := countFrom_pos m oracle (attempt + 1) fuel hfuel
            rw [ih (attempt + 1) _ (by omega)]
            dsimp only
            have hsub : 1 + countFrom m oracle (attempt + 1) fuel - 1 =
                (countFrom m oracle (attempt + 1) fuel - 1) + 1 := by omega
            rw [hsub, List.range'_succ]
            simp
          · simp

theorem go_strip_congr (m : Nat) (o1 o2 : Nat → Outcome)
    (h : ∀ i, o1 i = stripRA (o2 i)) :
    ∀ (fuel attempt : Nat) (tr : Trace),
      (go m o1 attempt fuel tr).2 = (go m o2 attempt fuel tr).2 := by
  intro fuel
  induction fuel with
  | zero => intro attempt tr; rfl
  | succ fuel ih =>
      intro attempt tr
      rw [go, go]
      have h1 := h attempt
      cases ho : o2 attempt with
      | response status ra =>
          rw [ho] at h1
          simp only [stripRA] at h1
          rw [h1]
          dsimp only
          split
          · rw [ih]
          · rfl
      | abortError =>
          rw [ho] at h1
          simp only [stripRA] at h1
          rw [h1]
          dsimp only
          split
          · rw [ih]
          · rfl
      | otherError =>
          rw [ho] at h1
          simp only [stripRA] at h1
          rw [h1]
          dsimp only
          split
          · rw [ih]
          · rfl

theorem go_timers (m : Nat) (oracle : Nat → Outcome) :
    ∀ (fuel attempt : Nat) (tr : Trace),
      ((go m oracle attempt fuel tr).2).timersSet =
          tr.timersSet + countFrom m oracle attempt fuel ∧
      ((go m oracle attempt fuel tr).2).timersCleared =
          tr.timersCleared +
            (List.range' attempt (countFrom m oracle attempt fuel)).countP
              (fun i => isResp (oracle i)) ∧
      ((go m oracle attempt fuel tr).2).timersFired =
          tr.timersFired +
            (List.range' attempt (countFrom m oracle attempt fuel)).countP
              (fun i => isAbort (oracle i)) ∧
      ((go m oracle attempt fuel tr).2).timersLeaked =
          tr.timersLeaked +
            (List.range' attempt (countFrom m oracle attempt fuel)).countP
              (fun i => isOther (oracle i)) := by
  intro fuel
  induction fuel with
  | zero => intro attempt tr; simp [go, countFrom]
  | succ fuel ih =>
      intro attempt tr
      rw [go, countFrom]
      cases ho : oracle attempt with
      | response status ra =>
          dsimp only
          split
          · obtain ⟨h1, h2, h3, h4⟩ := ih (attempt + 1) _
            have hc : 1 + countFrom m oracle (attempt + 1) fuel =
                countFrom m oracle (attempt + 1) fuel + 1 := by omega
            rw [hc, List.range'_succ, List.countP_cons, List.countP_cons, List.countP_cons,
              h1, h2, h3, h4]
            refine ⟨?_, ?_, ?_, ?_⟩ <;>
              first
              | (simp [isResp, isAbort, isOther, ho]; omega)
              | simp [isResp, isAbort, isOther, ho]
              | omega
          · have hr : List.range' attempt 1 = [attempt] := rfl
            rw [hr]
            refine ⟨?_, ?_, ?_, ?_⟩ <;>
              first
              | (simp [isResp, isAbort, isOther, ho]; omega)
              | simp [isResp, isAbort, isOther, ho]
              | omega
      | abortError =>
          dsimp only
          split
          · obtain ⟨h1, h2, h3, h4⟩ := ih (attempt + 1) _
            have hc : 1 + countFrom m oracle (attempt + 1) fuel =
                countFrom m oracle (attempt + 1) fuel + 1 := by omega
            rw [hc, List.range'_succ, List.countP_cons, List.countP_cons, List.countP_cons,
              h1, h2, h3, h4]
            refine ⟨?_, ?_, ?_, ?_⟩ <;>
              first
              | (simp [isResp, isAbort, isOther, ho]; omega)
              | simp [isResp, isAbort, isOther, ho]
              | omega
          · have hr : List.range' attempt 1 = [attempt] := rfl
            rw [hr]
            refine ⟨?_, ?_, ?_, ?_⟩ <;>
              first
              | (simp [isResp, isAbort, isOther, ho]; omega)
              | simp [isResp, isAbort, isOther, ho]
              | omega
      | otherError =>
          dsimp only
          split
          · obtain ⟨h1, h2, h3, h4⟩ := ih (attempt + 1) _
            have hc : 1 + countFrom m oracle (attempt + 1) fuel =
                countFrom m oracle (attempt + 1) fuel + 1 := by omega
            rw [hc, List.range'_succ, List.countP_cons, List.countP_cons, List.countP_cons,
              h1, h2, h3, h4]
            refine ⟨?_, ?_, ?_, ?_⟩ <;>
              first
              | (simp [isResp, isAbort, isOther, ho]; omega)
              | simp [isResp, isAbort, isOther, ho]
              | omega
          · have hr : List.range' attempt 1 = [attempt] := rfl
            rw [hr]
            refine ⟨?_, ?_, ?_, ?_⟩ <;>
              first
              | (simp [isResp, isAbort, isOther, ho]; omega)
              | simp [isResp, isAbort, isOther, ho]
              | omega

theorem countP_kinds (oracle : Nat → Outcome) :
    ∀ l : List Nat,
      l.countP (fun i => isResp (oracle i)) + l.countP (fun i => isAbort (oracle i)) +
        l.countP (fun i => isOther (oracle i)) = l.length := by
  intro l
  induction l with
  | nil => rfl
  | cons a l ih =>
      simp only [List.countP_cons, List.length_cons]
      cases ho : oracle a with
      | response status ra =>
          rw [show isResp (Outcome.response status ra) = true from rfl,
            show isAbort (Outcome.response status ra) = false from rfl,
            show isOther (Outcome.response status ra) = false from rfl]
          simp
          omega
      | abortError =>
          rw [show isResp Outcome.abortError = false from rfl,
            show isAbort Outcome.abortError = true from rfl,
            show isOther Outcome.abortError = false from rfl]
          simp
          omega
      | otherError =>
          rw [show isResp Outcome.otherError = false from rfl,
            show isAbort Outcome.otherError = false from rfl,
            show isOther Outcome.otherError = true from rfl]
          simp
          omega

/-- C2 counterexample: the first attempt returns HTTP 503 with a
`Retry-After: 7` header (7 s = 7000 ms); the claim says the next delay
honours the header, but `fetchWithRetry` never reads `Retry-After` and
sleeps exactly `1000 * 2 ^ 0 = 1000` ms. -/
theorem retry_after_not_honored :
    ((fetchWithRetry 1 (fun n =>
        if n = 0 then Outcome.response 503 (some 7)
        else Outcome.response 200 none)).2).delays = [1000] ∧
      [1000] ≠ [7000] := by
  constructor
  · rfl
  · decide

/-- C2 (amended): the delay between failed attempt `n` and attempt `n+1`
is always exactly `1000 * 2 ^ (n-1)` ms (base delay 1000 ms, zero-based
exponent, no jitter) — the lower endpoint of the claimed interval — and a
server-supplied `Retry-After` value is never consulted: stripping the
header from every response leaves the whole observable trace unchanged. -/
theorem backoff_exact_no_retry_after :
    (∀ (m : Nat) (oracle : Nat → Outcome),
      ((fetchWithRetry m oracle).2).delays =
        (List.range (((fetchWithRetry m oracle).2).calls - 1)).map
          (fun i => 1000 * 2 ^ i)) ∧
    (∀ (m : Nat) (oracle : Nat → Outcome),
      (fetchWithRetry m (fun i => stripRA (oracle i))).2 = (fetchWithRetry m oracle).2) := by
  constructor
  · intro m oracle
    have hd := go_delays m oracle (m + 1) 0 Trace.init (by omega)
    have hc := go_calls m oracle (m + 1) 0 Trace.init
    rw [fetchWithRetry, hd, hc]
    simp [Trace.init, List.range_eq_range']
  · intro m oracle
    exact go_strip_congr m _ oracle (fun i => rfl) (m + 1) 0 Trace.init

/-- C3 counterexample: HTTP 429 is in the claim's transient set and
`maxRetries = 3` attempts remain, yet `fetchWithRetry` issues exactly one
network call: its retry test is `response.status >= 500`, so 429 (and
408) are returned immediately. -/
theorem status429_single_call :
    ((fetchWithRetry 3 (fun _ => Outcome.response 429 none)).2).calls = 1 := by
  decide

/-- C3 (amended): `fetchWithRetry` issues a further network call iff the
previous attempt threw (`AbortError` from the deadline, or any other
network error) or returned an HTTP status ≥ 500, and the attempt count
has not exhausted `maxRetries` (the literal branch conditions of
`countFrom`); every response with status < 500 — including 408 and 429 —
is returned after exactly one network call regardless of `maxRetries`. -/
theorem retry_iff_thrown_or_5xx :
    (∀ (m : Nat) (oracle : Nat → Outcome),
      ((fetchWithRetry m oracle).2).calls = countFrom m oracle 0 (m + 1)) ∧
    (∀ (m status : Nat) (ra : Option Nat) (oracle : Nat → Outcome),
      oracle 0 = Outcome.response status ra → status < 500 →
      ((fetchWithRetry m oracle).2).calls = 1 ∧
      (fetchWithRetry m oracle).1 = RetryResult.response status ra) := by
  constructor
  · intro m oracle
    have hc := go_calls m oracle (m + 1) 0 Trace.init
    rw [fetchWithRetry, hc]
    simp [Trace.init]
  · intro m status ra oracle h0 hlt
    rw [fetchWithRetry, go, h0]
    dsimp only
    have hcond : ¬(resOk status = false ∧ 500 ≤ status ∧ 0 < m) := by
      intro hcs
      omega
    rw [if_neg hcond]
    exact ⟨rfl, rfl⟩

/-- Witness for `retry_iff_thrown_or_5xx`: a constant 404 oracle with
`maxRetries = 3` gives exactly one call and returns the 404 response. -/
theorem retry_iff_thrown_or_5xx_witness :
    ((fetchWithRetry 3 (fun _ => Outcome.response 404 none)).2).calls = 1 ∧
    (fetchWithRetry 3 (fun _ => Outcome.response 404 none)).1 =
      RetryResult.response 404 none :=
  retry_iff_thrown_or_5xx.2 3 404 none (fun _ => Outcome.response 404 none) rfl (by decide)

end ToolsClient

namespace API

/-- The error type `fetchWithTimeout` throws: an `ApiError` with a
message and, for HTTP errors, the response status. -/
structure ApiError where
  message : String
  status : Option Nat
deriving Repr, DecidableEq

/-- How the single `fetch` of `fetchWithTimeout` can end: a 2xx response,
a non-2xx response (with the optional string `detail` / `message` fields
of its parsed JSON body, `none` when absent or when the body parse
failed), an `AbortError` (deadline fired), or another thrown error. -/
inductive FetchOutcome where
  | success : FetchOutcome
  | httpError : Nat → Option String → Option String → FetchOutcome
  | abortError : FetchOutcome
  | otherError : FetchOutcome
deriving Repr, DecidableEq

/-- `fetchWithTimeout` from `src/unnamed/part_000`: the result of the
try/catch body together with whether the deadline timer was cleared.
Branches: 2xx → return the response; non-2xx → build `detail` starting
from `"<context> failed <status>"`, overridden by a string `detail`
field, then by a string `message` field, and throw `ApiError`; a caught
`AbortError` → `ApiError("<context> timed out")`; any other error →
`ApiError("<context> error")`.  The `finally \x7b clearTimeout(id) \x7d`
clause runs on every one of these paths, so the second component is
`true` in every branch. -/
def fetchWithTimeout (context : String) (o : FetchOutcome) : Except ApiError Unit × Bool :=
  match o with
  | FetchOutcome.success => (Except.ok (), true)
  | FetchOutcome.httpError status d m =>
    let fallback := context ++ " failed " ++ toString status
    let d1 := match d with
      | some s => s
      | none => fallback
    let d2 := match m with
      | some s => s
      | none => d1
    (Except.error { message := d2, status := some status }, true)
  | FetchOutcome.abortError =>
    (Except.error { message := context ++ " timed out", status := none }, true)
  | FetchOutcome.otherError =>
    (Except.error { message := context ++ " error", status := none }, true)

end API

/-- C9 counterexample: in `fetchWithRetry` the first attempt's `fetch`
rejects with a non-abort (network) error; the `clearTimeout` line sits
before the `catch`, so the per-attempt deadline timer is neither cleared
nor fired and one pending timer outlives the request — the claim says no
timer ever does. -/
theorem retry_timer_leak :
    ((ToolsClient.fetchWithRetry 1 (fun n =>
        if n = 0 then ToolsClient.Outcome.otherError
        else ToolsClient.Outcome.response 200 none)).2).timersLeaked = 1 := by
  decide

/-- C9 (amended): `fetchWithTimeout` always clears its deadline timer on
exit — success, non-2xx, abort or other error (its `clearTimeout` is in a
`finally`).  In `fetchWithRetry`, every attempt's timer is accounted for
(set = cleared + fired + leaked, one timer per call), but it is cleared
only on the response path; a timer leaks exactly on the attempts whose
`fetch` rejected with a non-abort error. -/
theorem timers_cleared_except_rejected_fetch :
    (∀ (context : String) (o : API.FetchOutcome),
      (API.fetchWithTimeout context o).2 = true) ∧
    (∀ (m : Nat) (oracle : Nat → ToolsClient.Outcome),
      ((ToolsClient.fetchWithRetry m oracle).2).timersSet = ((ToolsClient.fetchWithRetry m oracle).2).calls ∧
      ((ToolsClient.fetchWithRetry m oracle).2).timersSet =
        ((ToolsClient.fetchWithRetry m oracle).2).timersCleared +
          ((ToolsClient.fetchWithRetry m oracle).2).timersFired +
          ((ToolsClient.fetchWithRetry m oracle).2).timersLeaked ∧
      ((ToolsClient.fetchWithRetry m oracle).2).timersLeaked =
        (List.range ((ToolsClient.fetchWithRetry m oracle).2).calls).countP
          (fun i => ToolsClient.isOther (oracle i))) := by
  constructor
  · intro context o
    cases o <;> rfl
  · intro m oracle
    obtain ⟨h1, h2, h3, h4⟩ := ToolsClient.go_timers m oracle (m + 1) 0 ToolsClient.Trace.init
    have hc := ToolsClient.go_calls m oracle (m + 1) 0 ToolsClient.Trace.init
    have hk := ToolsClient.countP_kinds oracle (List.range' 0 (ToolsClient.countFrom m oracle 0 (m + 1)))
    have hlen : (List.range' 0 (ToolsClient.countFrom m oracle 0 (m + 1))).length =
        ToolsClient.countFrom m oracle 0 (m + 1) := by simp
    refine ⟨?_, ?_, ?_⟩
    · rw [ToolsClient.fetchWithRetry, h1, hc]
      rfl
    · rw [ToolsClient.fetchWithRetry, h1, h2, h3, h4]
      simp only [ToolsClient.Trace.init] at *
      omega
    · rw [ToolsClient.fetchWithRetry, h4, hc]
      simp [ToolsClient.Trace.init, List.range_eq_range']



namespace SSE

/-- Result of `JSON.parse` on an event payload, restricted to what the
decoders inspect: a JSON string (`typeof obj === "string"`), an object
whose `data` field is a string (`typeof obj.data === "string"`), or any
other JSON value. -/
inductive JResult where
  | jstr : List Char → JResult
  | jdata : List Char → JResult
  | jother : JResult
deriving Repr, DecidableEq

/-- `JSON.parse` itself is a platform primitive, not repository code, so
it enters the embedding as a parameter: `none` models a parse exception,
`some` a successful parse classified as a `JResult`. -/
abbrev JParse := List Char → Option JResult

/-- The text the decoders extract from a parsed value: the string itself,
the string `data` field, or `""` for anything else. -/
def textOf : JResult → List Char
  | JResult.jstr s => s
  | JResult.jdata s => s
  | JResult.jother => []

def dataTag : List Char := ("data:").data

def doneTok : List Char := ("[DONE]").data

/-- Per-line processing of the buffered `chatStream`
(`src/apps/web/src/lib/stream.ts`): skip lines without the `data:` tag;
drop the tag and one optional leading space; skip empty payloads and the
`[DONE]` terminator; on a successful parse emit the extracted text when
it is non-empty (`if (text)`); on a parse exception emit the raw payload
(tolerant fallback).  Returns the emitted delta, if any. -/
def lineEmit (jp : JParse) (raw : List Char) : Option (List Char) :=
  if dataTag.isPrefixOf raw then
    let d0 := raw.drop 5
    let data := if d0.take 1 = [' '] then d0.drop 1 else d0
    if data = [] ∨ data = doneTok then none
    else
      match jp data with
      | some j =>
        let text := textOf j
        if text = [] then none else some text
      | none => some data
  else none

/-- The accumulator the stream loop threads: `full` (the returned string)
and the ordered list of `onDelta` payloads.  The source updates both
together on every emission. -/
structure Acc where
  full : List Char
  deltas : List (List Char)
deriving Repr, DecidableEq

def Acc.init : Acc := ⟨[], []⟩

def procLine (jp : JParse) (acc : Acc) (raw : List Char) : Acc :=
  match lineEmit jp raw with
  | some t => { full := acc.full ++ t, deltas := acc.deltas ++ [t] }
  | none => acc

/-- The inner `while ((nl = buf.indexOf("\n")) !== -1)` loop: scan the
buffer character by character; each `'\n'` terminates the current line,
which is processed by `procLine`; the characters after the last newline
are the new buffer. -/
def scanChunk (jp : JParse) : Acc → List Char → List Char → Acc × List Char
  | acc, cur, [] => (acc, cur)
  | acc, cur, c :: cs =>
    if c = '\n' then scanChunk jp (procLine jp acc cur) [] cs
    else scanChunk jp acc (cur ++ [c]) cs

/-- State of the buffered decoder between chunks: the pending partial
line `buf` plus the accumulator. -/
structure SState where
  buf : List Char
  acc : Acc
deriving Repr, DecidableEq

def SState.init : SState := ⟨[], Acc.init⟩

/-- One iteration of the outer read loop of the buffered `chatStream`:
`buf += decoder.decode(value, \x7b stream: true \x7d)`, then extract and
process every complete line. -/
def feedChunk (jp : JParse) (s : SState) (chunk : List Char) : SState :=
  let p := scanChunk jp s.acc [] (s.buf ++ chunk)
  { buf := p.2, acc := p.1 }

/-- The buffered `chatStream` body applied to a whole sequence of chunks
(the function returns `full`; the trailing buffer is dropped at end of
stream). -/
def chatStreamRun (jp : JParse) (chunks : List (List Char)) : SState :=
  chunks.foldl (feedChunk jp) SState.init

/-- Prepend a character to the first line of a split (helper for
`splitLines`): with no complete line yet it goes to the remainder. -/
def consFst (c : Char) : List (List Char) × List Char → List (List Char) × List Char
  | ([], r) => ([], c :: r)
  | (l :: ls, r) => ((c :: l) :: ls, r)

/-- Reference splitting of a character stream into the newline-terminated
complete lines and the trailing remainder (the partial line). -/
def splitLines : List Char → List (List Char) × List Char
  | [] => ([], [])
  | c :: cs =>
    if c = '\n' then ([] :: (splitLines cs).1, (splitLines cs).2)
    else consFst c (splitLines cs)

theorem splitLines_no_nl : ∀ l : List Char, '\n' ∉ l → splitLines l = ([], l) := by
  intro l
  induction l with
  | nil => intro _; rfl
  | cons c cs ih =>
      intro h
      have hc : ¬ c = '\n' := by
        intro he
        exact h (he ▸ List.mem_cons_self c cs)
      rw [splitLines, if_neg hc, ih (fun hm => h (List.mem_cons_of_mem c hm))]
      rfl

theorem splitLines_rem : ∀ l : List Char, '\n' ∉ (splitLines l).2 := by
  intro l
  induction l with
  | nil => simp [splitLines]
  | cons c cs ih =>
      rw [splitLines]
      by_cases hc : c = '\n'
      · rw [if_pos hc]
        exact ih
      · rw [if_neg hc]
        rcases hsp : splitLines cs with ⟨ls, r⟩
        rw [hsp] at ih
        cases ls with
        | nil =>
            intro hm
            rcases List.mem_cons.mp hm with h1 | h1
            · exact hc h1.symm
            · exact ih h1
        | cons l0 ls0 => exact ih

theorem splitLines_cons_nl (cs : List Char) :
    ∀ cur : List Char, '\n' ∉ cur →
      splitLines (cur ++ '\n' :: cs) =
        (cur :: (splitLines cs).1, (splitLines cs).2) := by
  intro cur
  induction cur with
  | nil => intro _; simp [splitLines]
  | cons c cur ih =>
      intro h
      have hc : ¬ c = '\n' := by
        intro he
        exact h (he ▸ List.mem_cons_self c cur)
      have hcur : '\n' ∉ cur := fun hm => h (List.mem_cons_of_mem c hm)
      rw [List.cons_append, splitLines, if_neg hc, ih hcur]
      rfl

theorem splitLines_append : ∀ xs ys : List Char,
    splitLines (xs ++ ys) =
      ((splitLines xs).1 ++ (splitLines ((splitLines xs).2 ++ ys)).1,
        (splitLines ((splitLines xs).2 ++ ys)).2) := by
  intro xs
  induction xs with
  | nil => intro ys; simp [splitLines]
  | cons c cs ih =>
      intro ys
      rw [List.cons_append, splitLines, splitLines]
      by_cases hc : c = '\n'
      · rw [if_pos hc, if_pos hc, ih ys]
        rfl
      · rw [if_neg hc, if_neg hc, ih ys]
        rcases hsp : splitLines cs with ⟨ls, r⟩
        cases ls with
        | nil =>
            simp only [consFst, List.nil_append]
            rw [List.cons_append, splitLines, if_neg hc]
            rcases h2 : splitLines (r ++ ys) with ⟨a, b⟩
            cases a <;> rfl
        | cons l0 ls0 => rfl

theorem scan_split (jp : JParse) :
    ∀ (xs cur : List Char) (acc : Acc), '\n' ∉ cur →
      scanChunk jp acc cur xs =
        (((splitLines (cur ++ xs)).1).foldl (procLine jp) acc,
          (splitLines (cur ++ xs)).2) := by
  intro xs
  induction xs with
  | nil =>
      intro cur acc h
      rw [scanChunk, List.append_nil, splitLines_no_nl cur h]
      rfl
  | cons c cs ih =>
      intro cur acc h
      rw [scanChunk]
      by_cases hc : c = '\n'
      · subst hc
        rw [if_pos rfl, ih [] (procLine jp acc cur) (by simp),
          splitLines_cons_nl cs cur h]
        simp
      · rw [if_neg hc]
        have hcc : '\n' ∉ cur ++ [c] := by
          intro hmem
          rcases List.mem_append.mp hmem with h1 | h1
          · exact h h1
          · exact hc (List.mem_singleton.mp h1).symm
        rw [ih (cur ++ [c]) acc hcc, List.append_assoc, List.singleton_append]

theorem feedChunk_spec (jp : JParse) (s : SState) (chunk : List Char) :
    feedChunk jp s chunk =
      ⟨(splitLines (s.buf ++ chunk)).2,
        ((splitLines (s.buf ++ chunk)).1).foldl (procLine jp) s.acc⟩ := by
  rw [feedChunk, scan_split jp (s.buf ++ chunk) [] s.acc (by simp)]
  simp

theorem run_spec (jp : JParse) :
    ∀ (chunks : List (List Char)) (s : SState), '\n' ∉ s.buf →
      chunks.foldl (feedChunk jp) s =
        ⟨(splitLines (s.buf ++ chunks.flatten)).2,
          ((splitLines (s.buf ++ chunks.flatten)).1).foldl (procLine jp) s.acc⟩ := by
  intro chunks
  induction chunks with
  | nil =>
      intro s h
      rw [List.foldl_nil, List.flatten_nil, List.append_nil, splitLines_no_nl s.buf h]
      rfl
  | cons c cs ih =>
      intro s h
      rw [List.foldl_cons, feedChunk_spec, ih _ (splitLines_rem (s.buf ++ c))]
      rw [List.flatten_cons, ← List.append_assoc, splitLines_append (s.buf ++ c) cs.flatten]
      simp [List.foldl_append]

theorem chatStreamRun_spec (jp : JParse) (chunks : List (List Char)) :
    chatStreamRun jp chunks =
      ⟨(splitLines chunks.flatten).2,
        ((splitLines chunks.flatten).1).foldl (procLine jp) Acc.init⟩ := by
  rw [chatStreamRun, run_spec jp chunks SState.init (by simp [SState.init])]
  rfl

theorem foldl_procLine (jp : JParse) :
    ∀ (ls : List (List Char)) (acc : Acc),
      (ls.foldl (procLine jp) acc).deltas = acc.deltas ++ ls.filterMap (lineEmit jp) ∧
      (ls.foldl (procLine jp) acc).full =
        acc.full ++ (ls.filterMap (lineEmit jp)).flatten := by
  intro ls
  induction ls with
  | nil => intro acc; simp
  | cons l ls ih =>
      intro acc
      rw [List.foldl_cons, List.filterMap_cons]
      cases he : lineEmit jp l with
      | none =>
          have hp : procLine jp acc l = acc := by rw [procLine, he]
          rw [hp]
          exact ih acc
      | some t =>
          have hp : procLine jp acc l =
              { full := acc.full ++ t, deltas := acc.deltas ++ [t] } := by
            rw [procLine, he]
          rw [hp]
          obtain ⟨h1, h2⟩ := ih { full := acc.full ++ t, deltas := acc.deltas ++ [t] }
          constructor
          · rw [h1]; simp
          · rw [h2]; simp

/-- C4 (amended, positive half): the buffered `chatStream` of
`src/apps/web/src/lib/stream.ts` is chunk-boundary invariant — for every
per-line `JSON.parse` behaviour, every payload and every way of splitting
it into chunks, the decoder reaches the identical state (same ordered
deltas, same assembled full text, same trailing buffer) as when the whole
payload arrives as one chunk; a partial line stays buffered across chunk
boundaries and is only ever processed once its newline arrives. -/
theorem chunk_boundary_invariance (jp : JParse) (chunks : List (List Char)) :
    chatStreamRun jp chunks = chatStreamRun jp [chunks.flatten] := by
  rw [chatStreamRun_spec, chatStreamRun_spec]
  simp

/-- C10: at end of stream the trailing buffer (the partial line after the
last newline, even if it holds a complete `data:`-prefixed event) is
discarded: the deltas are exactly the per-line emissions of the
newline-terminated lines, the returned full text is exactly their
concatenation, and the leftover buffer is exactly the text after the last
newline. -/
theorem trailing_buffer_discarded (jp : JParse) (chunks : List (List Char)) :
    (chatStreamRun jp chunks).acc.deltas =
      ((splitLines chunks.flatten).1).filterMap (lineEmit jp) ∧
    (chatStreamRun jp chunks).acc.full =
      ((chatStreamRun jp chunks).acc.deltas).flatten ∧
    (chatStreamRun jp chunks).buf = (splitLines chunks.flatten).2 := by
  obtain ⟨h1, h2⟩ := foldl_procLine jp ((splitLines chunks.flatten).1) Acc.init
  rw [chatStreamRun_spec]
  dsimp only
  refine ⟨?_, ?_, rfl⟩
  · rw [h1]
    simp [Acc.init]
  · rw [h2, h1]
    simp [Acc.init]

/-- JS `String.prototype.trim` whitespace test, restricted to the ASCII
whitespace that can occur in these payloads. -/
def isWS (c : Char) : Bool :=
  c = ' ' || c = '\t' || c = '\n' || c = '\r'

def trimWS (l : List Char) : List Char :=
  ((l.dropWhile isWS).reverse.dropWhile isWS).reverse

/-- Per-line processing of the `chatStream` variant in
`src/unnamed/part_002`: `const data = line.slice(5).trim()`; empty data
is skipped, but there is no `[DONE]` check and no emptiness check on the
parsed text: a parsed string or a string `data` field is emitted as is,
any other parse result emits nothing, a parse exception emits the raw
trimmed payload. -/
def lineEmitSplit (jp : JParse) (line : List Char) : Option (List Char) :=
  if dataTag.isPrefixOf line then
    let data := trimWS (line.drop 5)
    if data = [] then none
    else
      match jp data with
      | some (JResult.jstr s) => some s
      | some (JResult.jdata s) => some s
      | some JResult.jother => none
      | none => some data
  else none

def procLineSplit (jp : JParse) (acc : Acc) (line : List Char) : Acc :=
  match lineEmitSplit jp line with
  | some t => { full := acc.full ++ t, deltas := acc.deltas ++ [t] }
  | none => acc

/-- `chunk.split(/\r?\n/)`: split at every newline, dropping one `\r`
immediately before it; the trailing segment is a line even without a
terminating newline. -/
def splitRN : List Char → List (List Char)
  | [] => [[]]
  | '\r' :: '\n' :: cs => [] :: splitRN cs
  | '\n' :: cs => [] :: splitRN cs
  | c :: cs =>
    match splitRN cs with
    | [] => [[c]]
    | l :: ls => (c :: l) :: ls

/-- The `chatStream` variant of `src/unnamed/part_002`: every chunk is
line-split independently and processed immediately; no buffer is carried
across chunk boundaries. -/
def chatStreamSplitRun (jp : JParse) (chunks : List (List Char)) : Acc :=
  chunks.foldl
    (fun acc chunk => (splitRN chunk).foldl (procLineSplit jp) acc) Acc.init

/-- Concrete stand-in for the `JSON.parse` parameter, restricted to
escape-free string literals: `"…"` parses to the enclosed text, anything
else throws.  It agrees with `JSON.parse` on every payload the
counterexample below feeds it. -/
def jsonParseLit : JParse := fun l =>
  match l with
  | '"' :: rest =>
    if rest ≠ [] ∧ rest.getLast? = some '"' ∧
        ∀ c ∈ rest.dropLast, c ≠ '"' ∧ c ≠ '\\' then
      some (JResult.jstr rest.dropLast)
    else none
  | _ => none

/-- C4 counterexample: the `chatStream` variant of `src/unnamed/part_002`
(cited by the claim) is not chunk-boundary invariant: the payload
`data: "AB"\n` fed as one chunk yields the delta `AB`, but split into
`data: "A` and `B"\n` it emits the garbage fragment `"A` and drops the
rest, because each chunk is line-split with no carry-over buffer. -/
theorem split_variant_not_invariant :
    chatStreamSplitRun jsonParseLit [("data: \"A").data, ("B\"\n").data] ≠
      chatStreamSplitRun jsonParseLit [("data: \"AB\"\n").data] := by
  decide

end SSE

namespace UI

/-- Outcome of the streaming-HTTP fallback (`chatStream`) for one turn:
resolve or throw, after delivering `n` deltas. -/
inductive SSEOutcome where
  | ok : Nat → SSEOutcome
  | fail : Nat → SSEOutcome
deriving Repr, DecidableEq

/-- How `handleSend` ends for one turn: normal completion, the outer
`catch` path (the placeholder assistant message is removed), or never —
an `await` that can never resolve. -/
inductive TurnEnd where
  | done : TurnEnd
  | errored : TurnEnd
  | hung : TurnEnd
deriving Repr, DecidableEq

/-- Observables of one `handleSend` turn: deltas applied to the assistant
message via the duplex transport, number of `chatStream` fallback
invocations, deltas applied via streaming-HTTP, and how the turn ends. -/
structure TurnTrace where
  wsFrames : Nat
  fallbackRuns : Nat
  sseFrames : Nat
  terminal : TurnEnd
deriving Repr, DecidableEq

/-- `ChatWSClient.sendChat` throws `"ws_not_open"` synchronously unless
the socket is OPEN; otherwise it serialises and sends the frame. -/
def sendChatOk (wsOpen : Bool) : Bool := wsOpen

/-- Whether the per-turn promise of the `transport === "ws"` branch of
`handleSend` ever settles.  `resolve` and `reject` are captured only by
the per-turn handler object that `handleSend` passes as a second argument
to `sendChat` — but `ws.ts` declares `sendChat(init: ChatInit)` with one
parameter, so that object is discarded; and the client was constructed as
`new ChatWSClient(\x7b url: API_BASE_URL \x7d)`, with no constructor-level
callbacks, so no server frame routed by `onmessage` can settle it either.
The promise therefore settles exactly when `sendChat` throws
synchronously, i.e. when the socket is not open. -/
def turnPromiseSettles (wsOpen : Bool) : Bool := !(sendChatOk wsOpen)

/-- The `transport === "ws"` branch of `handleSend` for one turn.  If the
send is accepted the `await` pends forever (see `turnPromiseSettles`):
no fallback, no frames applied (the discarded handler object held the
only `onDelta` for this turn), no terminal notification.  If the send is
rejected, the attached `.catch` runs the `chatStream` fallback exactly
once: its resolution completes the turn, its rejection reaches the outer
`catch`.  The server events on the channel are irrelevant either way. -/
def wsTurn (wsOpen : Bool) (_serverEvents : List WS.Event) (sse : SSEOutcome) : TurnTrace :=
  if sendChatOk wsOpen then
    { wsFrames := 0, fallbackRuns := 0, sseFrames := 0, terminal := TurnEnd.hung }
  else
    match sse with
    | SSEOutcome.ok n =>
      { wsFrames := 0, fallbackRuns := 1, sseFrames := n, terminal := TurnEnd.done }
    | SSEOutcome.fail n =>
      { wsFrames := 0, fallbackRuns := 1, sseFrames := n, terminal := TurnEnd.errored }

/-- C5 (code bug): at the failing input — duplex transport, socket OPEN,
`sendChat` accepted, server then delivers a `done` frame — the turn
produces no terminal notification at all (it hangs), instead of the
claimed exactly-one: the per-turn `onDone`/`onError` were discarded by
the one-parameter `sendChat` and the client has no constructor
callbacks, so neither `resolve` nor `reject` can ever run. -/
theorem ws_turn_hangs :
    wsTurn true
        [WS.Event.message (some { type := some ("done"), data := none, message := none })]
        (SSEOutcome.ok 1) =
      { wsFrames := 0, fallbackRuns := 0, sseFrames := 0, terminal := TurnEnd.hung } := rfl

/-- C6 counterexample: the duplex attempt fails with a channel error and
zero frames delivered — by the claim the selector must fall back to
streaming-HTTP exactly once — yet no fallback runs: a channel-reported
error cannot reject the per-turn promise (the handlers were discarded),
so the `.catch` that triggers the fallback never fires. -/
theorem ws_error_no_fallback :
    (wsTurn true [WS.Event.errored] (SSEOutcome.ok 2)).fallbackRuns = 0 := rfl

/-- C6 (amended): the fallback to streaming-HTTP runs exactly once iff
the duplex send is rejected synchronously (socket not open), and never
otherwise — channel-reported errors or closes never trigger it; at most
one fallback per turn; and no frame is ever delivered via the duplex
transport, so all delivered frames of a turn come from the single
committed streaming-HTTP transport and no mid-stream transport switch
occurs. -/
theorem fallback_iff_send_rejected (wsOpen : Bool) (serverEvents : List WS.Event)
    (sse : SSEOutcome) :
    (wsTurn wsOpen serverEvents sse).fallbackRuns = (if wsOpen then 0 else 1) ∧
    (wsTurn wsOpen serverEvents sse).wsFrames = 0 ∧
    (wsTurn wsOpen serverEvents sse).fallbackRuns ≤ 1 := by
  cases wsOpen <;> cases sse <;> simp [wsTurn, sendChatOk]

end UI

